import Mathlib

/-!
Verification of the asset-generation routines of `generate_assets.py`
(UWtopia Rx asset generator).  The Python functions are shallowly embedded:

* colors are integer triples (`RGB`); the module converts 6-hex-digit color
  strings with `hex_to_rgb` and the drawing routines work on the triples;
* Python `int(...)` truncation toward zero is `pyInt`; the source's float
  arithmetic (`ratio = y / height` and the channel interpolation) is
  modelled as exact rational arithmetic;
* `create_gradient_background` is modelled as the grid of pixels painted by
  its per-row `draw.line` calls on a `width` × `height` canvas: the line
  from `(0, y)` to `(width, y)` paints row `y` uniformly (the inclusive
  endpoint `x = width` lies outside the canvas and is clipped by PIL);
* `draw_text_with_outline` is modelled by the ordered list of text draw
  operations it performs (`stampOps`) and by their effect on a canvas; a
  font's glyph coverage is an abstract mask, and PIL's `textbbox` / `text`
  calls raise before painting anything when the font cannot render the
  text, which the embedding captures with a `canRender` predicate;
* `get_font` is modelled over abstract `os.path.exists` / TrueType
  load-success predicates, since the filesystem is an external
  collaborator.
-/

namespace GenerateAssets

/-- An RGB color triple, one integer per channel. -/
structure RGB where
  r : ℤ
  g : ℤ
  b : ℤ
deriving DecidableEq

/-- A color is valid when every channel lies in `[0, 255]`, as produced by
`hex_to_rgb`. -/
def validColor (c : RGB) : Prop :=
  0 ≤ c.r ∧ c.r ≤ 255 ∧ 0 ≤ c.g ∧ c.g ≤ 255 ∧ 0 ≤ c.b ∧ c.b ≤ 255

instance : DecidablePred validColor := fun c => by
  unfold validColor
  infer_instance

/-- Python `int(q)` on a real number: truncation toward zero
(`int(2.7) == 2`, `int(-2.7) == -2`). -/
def pyInt (q : ℚ) : ℤ :=
  if q < 0 then ⌈q⌉ else ⌊q⌋

/-- Value of one hexadecimal digit as accepted by Python `int(_, 16)`:
`0`-`9`, `a`-`f`, `A`-`F` (by code point). -/
def hexDigitVal (c : Char) : Option ℕ :=
  if 48 ≤ c.toNat ∧ c.toNat ≤ 57 then some (c.toNat - 48)
  else if 97 ≤ c.toNat ∧ c.toNat ≤ 102 then some (c.toNat - 87)
  else if 65 ≤ c.toNat ∧ c.toNat ≤ 70 then some (c.toNat - 55)
  else none

/-- Accumulator pass of Python `int(_, 16)` over the digit characters. -/
def parseHexDigits : List Char → ℕ → Option ℕ
  | [], acc => some acc
  | c :: cs, acc =>
    match hexDigitVal c with
    | none => none
    | some v => parseHexDigits cs (16 * acc + v)

/-- Python `int(s, 16)` on a digit string: fails (`ValueError`) on the empty
string or on any non-hex character, otherwise the base-16 value. -/
def pyIntBase16 (cs : List Char) : Option ℕ :=
  match cs with
  | [] => none
  | _ => parseHexDigits cs 0

/-- Python `str.lstrip('#')`: drop every leading `'#'`. -/
def lstripHash : List Char → List Char
  | [] => []
  | c :: cs => if c = '#' then lstripHash cs else c :: cs

/-- `hex_to_rgb(hex_color)`: strip leading `'#'`, then parse the three
2-character slices `[0:2]`, `[2:4]`, `[4:6]` with `int(_, 16)`.  `none`
models the `ValueError` Python raises on malformed input. -/
def hex_to_rgb (s : String) : Option (ℕ × ℕ × ℕ) :=
  let cs := lstripHash s.data
  match pyIntBase16 (cs.take 2), pyIntBase16 ((cs.drop 2).take 2),
      pyIntBase16 ((cs.drop 4).take 2) with
  | some rv, some gv, some bv => some (rv, gv, bv)
  | _, _, _ => none

/-- Channel interpolation of `create_gradient_background`:
`int(c1 + (c2 - c1) * ratio)` with `ratio = y / height`, the float
arithmetic taken exactly over `ℚ`. -/
def interpChannel (c1 c2 : ℤ) (y h : ℕ) : ℤ :=
  pyInt ((c1 : ℚ) + ((c2 : ℚ) - (c1 : ℚ)) * ((y : ℚ) / (h : ℚ)))

/-- Color painted on row `y` by `create_gradient_background`. -/
def gradientRow (top bottom : RGB) (y h : ℕ) : RGB :=
  ⟨interpChannel top.r bottom.r y h,
   interpChannel top.g bottom.g y h,
   interpChannel top.b bottom.b y h⟩

/-- `create_gradient_background(draw, width, height, top, bottom)`, modelled
as the grid of pixels its `draw.line` calls paint on a `width` × `height`
canvas: one uniformly colored row per loop iteration `y in range(height)`.
For non-positive `height` the loop body never runs (Python `range` is
empty), and for non-positive `width` the painted rows hold no canvas
pixels; no dimension validation of any kind is performed. -/
def create_gradient_background (width height : ℤ) (top bottom : RGB) :
    List (List RGB) :=
  (List.range height.toNat).map fun y =>
    List.replicate width.toNat (gradientRow top bottom y height.toNat)

/-- Python `range(a, b)` as the list `[a, a+1, ..., b-1]` (empty when
`b ≤ a`). -/
def pyRange (a b : ℤ) : List ℤ :=
  (List.range (b - a).toNat).map fun i : ℕ => a + (i : ℤ)

/-- One `draw.text` call issued by `draw_text_with_outline`: an offset
`(dx, dy)` from the anchor position and the color used there. -/
structure DrawOp where
  dx : ℤ
  dy : ℤ
  color : RGB
deriving DecidableEq

/-- Outline passes of `draw_text_with_outline`: the nested loops
`for adj_x in range(-w, w+1): for adj_y in range(-w, w+1)` emit a text draw
in the outline color at every offset with `adj_x != 0 or adj_y != 0`. -/
def haloOps (w : ℤ) (outline : RGB) : List DrawOp :=
  (pyRange (-w) (w + 1)).flatMap fun ax =>
    (pyRange (-w) (w + 1)).flatMap fun ay =>
      if ax ≠ 0 ∨ ay ≠ 0 then [⟨ax, ay, outline⟩] else []

/-- Complete ordered list of `draw.text` calls made by
`draw_text_with_outline`: all outline draws, then the single main draw in
the fill color at the anchor itself. -/
def stampOps (w : ℤ) (fill outline : RGB) : List DrawOp :=
  haloOps w outline ++ [⟨0, 0, fill⟩]

/-- A canvas as a total pixel map; PIL clips draws outside the image, which
the infinite plane absorbs. -/
def Canvas2 : Type := ℤ → ℤ → RGB

/-- An abstract PIL font handle: which strings its glyph source can render,
the bounding box `textbbox` reports for a string, and the pixel coverage
mask (relative to the draw position) that `draw.text` paints. -/
structure Font where
  canRender : String → Bool
  bboxOf : String → ℤ × ℤ × ℤ × ℤ
  mask : String → ℤ → ℤ → Bool

/-- One `draw.text(pos, t, font=f, fill=color)` call: paint `color` on every
pixel covered by the glyph mask anchored at `pos`. -/
def drawText (f : Font) (t : String) (px qy : ℤ) (color : RGB)
    (c : Canvas2) : Canvas2 :=
  fun a b => if f.mask t (a - px) (b - qy) then color else c a b

/-- `draw_text_with_outline(draw, position, text, font, fill, outline, w)`:
perform the draw calls of `stampOps` in order on the canvas. -/
def draw_text_with_outline (f : Font) (pos : ℤ × ℤ) (t : String)
    (fill outline : RGB) (w : ℤ) (c : Canvas2) : Canvas2 :=
  (stampOps w fill outline).foldl
    (fun acc op => drawText f t (pos.1 + op.dx) (pos.2 + op.dy) op.color acc) c

/-- `draw.textbbox((0, 0), text, font=f)`: PIL resolves every glyph of
`text` through the font before anything is painted, so an unrenderable
string raises here, ahead of any `draw.text` call.  `Except.error`
models the raised exception. -/
def pyTextbbox (f : Font) (t : String) : Except Unit (ℤ × ℤ × ℤ × ℤ) :=
  if f.canRender t then Except.ok (f.bboxOf t) else Except.error ()

/-- One label of `create_app_icon` (or of the other image builders): its
text, font, colors, outline width, and the caller's centering arithmetic
`place`, which turns the measured bounding box into the anchor position. -/
structure LabelSpec where
  text : String
  font : Font
  place : ℤ × ℤ × ℤ × ℤ → ℤ × ℤ
  fill : RGB
  outline : RGB
  width : ℤ

/-- One guarded label block of `create_app_icon`: a `try` that measures the
text with `textbbox`, computes the anchor, and stamps; its bare `except`
leaves the canvas untouched when the measurement raises. -/
def tryStamp (c : Canvas2) (l : LabelSpec) : Canvas2 :=
  match pyTextbbox l.font l.text with
  | Except.error _ => c
  | Except.ok bb =>
    draw_text_with_outline l.font (l.place bb) l.text l.fill l.outline l.width c

/-- Label phase of `create_app_icon`: the guarded stamps (in the source,
"Rx", "UWtopia" and "@DrEndris") applied in order to the gradient canvas. -/
def create_app_icon_stamps (c : Canvas2) (labels : List LabelSpec) : Canvas2 :=
  labels.foldl tryStamp c

/-- A resolved font: either a TrueType font loaded from a path at a size, or
PIL's built-in `ImageFont.load_default()`. -/
inductive FontHandle where
  | truetype (path : String) (size : ℤ)
  | builtin
deriving DecidableEq

/-- Candidate list built by `get_font`: three font paths chosen by the
`bold` flag, then the literal `None` entry. -/
def font_options (bold : Bool) : List (Option String) :=
  [some (if bold then "/system/fonts/Roboto-Bold.ttf"
         else "/system/fonts/Roboto-Regular.ttf"),
   some (if bold then "/system/fonts/DroidSans-Bold.ttf"
         else "/system/fonts/DroidSans.ttf"),
   some (if bold
         then "/data/data/com.termux/files/usr/share/fonts/TTF/DejaVuSans-Bold.ttf"
         else "/data/data/com.termux/files/usr/share/fonts/TTF/DejaVuSans.ttf"),
   none]

/-- Loop of `get_font` over the candidates: a `None` entry or a missing path
is skipped by the `if font_path and os.path.exists(font_path)` guard; a
path whose `ImageFont.truetype` load raises is skipped by the
`try/except/continue`; a successful load returns; exhaustion falls through
to `ImageFont.load_default()`.  `pathExists` and `loadOk` abstract the
filesystem and the TrueType loader. -/
def resolveFont (pathExists loadOk : String → Bool) (size : ℤ) :
    List (Option String) → FontHandle
  | [] => FontHandle.builtin
  | none :: rest => resolveFont pathExists loadOk size rest
  | some p :: rest =>
    if pathExists p then
      if loadOk p then FontHandle.truetype p size
      else resolveFont pathExists loadOk size rest
    else resolveFont pathExists loadOk size rest

/-- `get_font(size, bold)` over abstract filesystem/loader predicates. -/
def get_font (pathExists loadOk : String → Bool) (size : ℤ) (bold : Bool) :
    FontHandle :=
  resolveFont pathExists loadOk size (font_options bold)

/-- Modelled from the spec: "checking an ordered list of filesystem paths
for a matching font resource" — the first candidate path that exists and
loads successfully, if any.  Used to state that `get_font` refines the
spec's first-success fallback chain. -/
def specFirstUsable (pathExists loadOk : String → Bool) :
    List (Option String) → Option String
  | [] => none
  | none :: rest => specFirstUsable pathExists loadOk rest
  | some p :: rest =>
    if pathExists p && loadOk p then some p
    else specFirstUsable pathExists loadOk rest

/-- A concrete font whose glyph source renders nothing; its `textbbox`
measurement always raises. -/
def noGlyphFont : Font :=
  ⟨fun _ => false, fun _ => (0, 0, 0, 0), fun _ _ _ => false⟩

/-- A concrete label whose font cannot render its text. -/
def unrenderableLabel : LabelSpec :=
  ⟨"Rx", noGlyphFont, fun _ => (0, 0), ⟨255, 255, 255⟩, ⟨30, 91, 184⟩, 4⟩

/-- A concrete font that covers exactly the pixel at its draw position. -/
def dotFont : Font :=
  ⟨fun _ => true, fun _ => (0, 0, 1, 1), fun _ u v => u == 0 && v == 0⟩

/-- A concrete uniformly colored canvas. -/
def blankCanvas : Canvas2 := fun _ _ => ⟨46, 124, 238⟩

/-- Truncation of an integer is that integer. -/
lemma pyInt_intCast (n : ℤ) : pyInt (n : ℚ) = n := by
  unfold pyInt
  split <;> simp

/-- On nonnegative values Python truncation agrees with the floor. -/
lemma pyInt_eq_floor {q : ℚ} (hq : 0 ≤ q) : pyInt q = ⌊q⌋ := by
  unfold pyInt
  rw [if_neg (not_lt.mpr hq)]

/-- At row `0` the interpolation returns the top channel exactly. -/
lemma interpChannel_zero (c1 c2 : ℤ) (h : ℕ) : interpChannel c1 c2 0 h = c1 := by
  unfold interpChannel
  simp [pyInt_intCast]

/-- The interpolated value stays nonnegative for channels in range. -/
lemma interpVal_nonneg (c1 c2 : ℤ) (y h : ℕ) (h1 : 0 ≤ c1) (h2 : 0 ≤ c2)
    (hy : y ≤ h) :
    0 ≤ (c1 : ℚ) + ((c2 : ℚ) - (c1 : ℚ)) * ((y : ℚ) / (h : ℚ)) := by
  rcases Nat.eq_zero_or_pos h with h0 | hpos
  · subst h0
    have : y = 0 := Nat.le_zero.mp hy
    subst this
    simp
    exact_mod_cast h1
  · have hhq : (0 : ℚ) < (h : ℚ) := by exact_mod_cast hpos
    have hr0 : (0 : ℚ) ≤ (y : ℚ) / (h : ℚ) :=
      div_nonneg (by positivity) (le_of_lt hhq)
    have hr1 : (y : ℚ) / (h : ℚ) ≤ 1 := by
      rw [div_le_one hhq]
      exact_mod_cast hy
    have hc1 : (0 : ℚ) ≤ (c1 : ℚ) := by exact_mod_cast h1
    have hc2 : (0 : ℚ) ≤ (c2 : ℚ) := by exact_mod_cast h2
    rcases le_total (c1 : ℚ) (c2 : ℚ) with hc | hc
    · nlinarith
    · nlinarith

/-- Monotone case of the interpolation: a channel growing toward the
bottom value never decreases with the row index. -/
lemma interp_mono (c1 c2 : ℤ) (h y y2 : ℕ) (h1 : 0 ≤ c1) (h2 : 0 ≤ c2)
    (hh : 0 < h) (hy : y ≤ y2) (hy2 : y2 ≤ h) (hc : c1 ≤ c2) :
    interpChannel c1 c2 y h ≤ interpChannel c1 c2 y2 h := by
  unfold interpChannel
  rw [pyInt_eq_floor (interpVal_nonneg c1 c2 y h h1 h2 (le_trans hy hy2)),
    pyInt_eq_floor (interpVal_nonneg c1 c2 y2 h h1 h2 hy2)]
  apply Int.floor_le_floor
  have hhq : (0 : ℚ) < (h : ℚ) := by exact_mod_cast hh
  have hr : (y : ℚ) / (h : ℚ) ≤ (y2 : ℚ) / (h : ℚ) := by
    gcongr
  have hcq : (0 : ℚ) ≤ (c2 : ℚ) - (c1 : ℚ) := by
    have : (c1 : ℚ) ≤ (c2 : ℚ) := by exact_mod_cast hc
    linarith
  nlinarith

/-- Antitone case of the interpolation: a channel shrinking toward the
bottom value never increases with the row index. -/
lemma interp_anti (c1 c2 : ℤ) (h y y2 : ℕ) (h1 : 0 ≤ c1) (h2 : 0 ≤ c2)
    (hh : 0 < h) (hy : y ≤ y2) (hy2 : y2 ≤ h) (hc : c2 ≤ c1) :
    interpChannel c1 c2 y2 h ≤ interpChannel c1 c2 y h := by
  unfold interpChannel
  rw [pyInt_eq_floor (interpVal_nonneg c1 c2 y h h1 h2 (le_trans hy hy2)),
    pyInt_eq_floor (interpVal_nonneg c1 c2 y2 h h1 h2 hy2)]
  apply Int.floor_le_floor
  have hhq : (0 : ℚ) < (h : ℚ) := by exact_mod_cast hh
  have hr : (y : ℚ) / (h : ℚ) ≤ (y2 : ℚ) / (h : ℚ) := by
    gcongr
  have hcq : (c2 : ℚ) - (c1 : ℚ) ≤ 0 := by
    have : (c2 : ℚ) ≤ (c1 : ℚ) := by exact_mod_cast hc
    linarith
  nlinarith

/-- The gradient canvas has one row per `y in range(height)`. -/
lemma create_gradient_background_length (width height : ℤ) (top bottom : RGB) :
    (create_gradient_background width height top bottom).length = height.toNat := by
  simp [create_gradient_background]

/-- Row `y` of the gradient canvas is `width` pixels of the row color. -/
lemma create_gradient_background_get (width height : ℤ) (top bottom : RGB)
    (y : ℕ) (hy : y < (create_gradient_background width height top bottom).length) :
    (create_gradient_background width height top bottom).get ⟨y, hy⟩ =
      List.replicate width.toNat (gradientRow top bottom y height.toNat) := by
  simp [create_gradient_background, List.get_eq_getElem]

/-- Row `0` of the gradient is exactly the top color. -/
lemma gradientRow_zero (top bottom : RGB) (h : ℕ) :
    gradientRow top bottom 0 h = top := by
  unfold gradientRow
  rw [interpChannel_zero, interpChannel_zero, interpChannel_zero]

/-- C1: for every positive width and height and valid colors, the canvas
produced by `create_gradient_background` has one row per `y` in
`[0, height)`, and row `y` is uniformly the color whose channels are the
integer-truncated linear interpolations of the corresponding top and
bottom channels at ratio `y / height`, each channel independent of the
others. -/
theorem gradient_rows_interpolated (width height : ℤ) (top bottom : RGB)
    (hw : 0 < width) (hh : 0 < height)
    (htop : validColor top) (hbot : validColor bottom) :
    (create_gradient_background width height top bottom).length = height.toNat ∧
    ∀ (y x : ℕ)
      (hy : y < (create_gradient_background width height top bottom).length)
      (hx : x < ((create_gradient_background width height top bottom).get
        ⟨y, hy⟩).length),
      ((create_gradient_background width height top bottom).get ⟨y, hy⟩).get
          ⟨x, hx⟩ =
        ⟨interpChannel top.r bottom.r y height.toNat,
         interpChannel top.g bottom.g y height.toNat,
         interpChannel top.b bottom.b y height.toNat⟩ := by
  refine ⟨create_gradient_background_length width height top bottom, ?_⟩
  intro y x hy hx
  have hrow := create_gradient_background_get width height top bottom y hy
  revert hx
  rw [hrow]
  intro hx
  rw [List.get_replicate]
  rfl

/-- C1 witness: concrete instance at width 2, height 2, black to white,
row 1, column 0. -/
theorem gradient_rows_interpolated_witness :
    ((create_gradient_background 2 2 ⟨0, 0, 0⟩ ⟨255, 255, 255⟩).get
        ⟨1, by decide⟩).get ⟨0, by decide⟩ =
      ⟨interpChannel 0 255 1 2, interpChannel 0 255 1 2,
       interpChannel 0 255 1 2⟩ :=
  (gradient_rows_interpolated 2 2 ⟨0, 0, 0⟩ ⟨255, 255, 255⟩ (by decide)
    (by decide) (by decide) (by decide)).2 1 0 (by decide) (by decide)

/-- C3 counterexample: called with `width = 0` and `height = 0`,
`create_gradient_background` raises nothing and simply returns the
degenerate empty canvas — the source performs no dimension validation and
no `InvalidDimension` error exists anywhere in the program. -/
theorem gradient_no_invalid_dimension_error :
    create_gradient_background 0 0 ⟨255, 255, 255⟩ ⟨255, 255, 255⟩ = [] := rfl

/-- C3 amended: for non-positive width or height,
`create_gradient_background` performs no failing validation: it returns
normally with `max(height, 0)` rows, every one of which holds no pixels. -/
theorem gradient_degenerate_dimensions (width height : ℤ) (top bottom : RGB)
    (hnp : width ≤ 0 ∨ height ≤ 0) :
    (create_gradient_background width height top bottom).length =
      height.toNat ∧
    ∀ row ∈ create_gradient_background width height top bottom, row = [] := by
  refine ⟨create_gradient_background_length width height top bottom, ?_⟩
  intro row hrow
  simp only [create_gradient_background, List.mem_map, List.mem_range] at hrow
  obtain ⟨y, hy, rfl⟩ := hrow
  rcases hnp with h | h
  · have hz : width.toNat = 0 := by omega
    rw [hz]
    rfl
  · exfalso
    omega

/-- C3 amended witness: width 0 with positive height yields five empty
rows and no error. -/
theorem gradient_degenerate_dimensions_witness :
    (create_gradient_background 0 5 ⟨0, 0, 0⟩ ⟨255, 255, 255⟩).length =
      (5 : ℤ).toNat ∧
    ∀ row ∈ create_gradient_background 0 5 ⟨0, 0, 0⟩ ⟨255, 255, 255⟩,
      row = [] :=
  gradient_degenerate_dimensions 0 5 ⟨0, 0, 0⟩ ⟨255, 255, 255⟩
    (Or.inl (by decide))

/-- C4: for positive dimensions and valid colors, row `0` of the gradient
canvas is exactly the top color, and the last row (`height - 1`) is the
integer-truncated interpolation at ratio `(height - 1) / height`, i.e. the
bottom color up to truncation error. -/
theorem gradient_endpoint_rows (width height : ℤ) (top bottom : RGB)
    (hw : 0 < width) (hh : 0 < height)
    (htop : validColor top) (hbot : validColor bottom)
    (h0 : 0 < (create_gradient_background width height top bottom).length)
    (hl : height.toNat - 1 <
      (create_gradient_background width height top bottom).length) :
    (create_gradient_background width height top bottom).get ⟨0, h0⟩ =
      List.replicate width.toNat top ∧
    (create_gradient_background width height top bottom).get
        ⟨height.toNat - 1, hl⟩ =
      List.replicate width.toNat
        ⟨interpChannel top.r bottom.r (height.toNat - 1) height.toNat,
         interpChannel top.g bottom.g (height.toNat - 1) height.toNat,
         interpChannel top.b bottom.b (height.toNat - 1) height.toNat⟩ := by
  constructor
  · rw [create_gradient_background_get width height top bottom 0 h0,
      gradientRow_zero]
  · rw [create_gradient_background_get width height top bottom
      (height.toNat - 1) hl]
    rfl

/-- C4 witness: concrete instance at width 1, height 4. -/
theorem gradient_endpoint_rows_witness :
    (create_gradient_background 1 4 ⟨0, 0, 0⟩ ⟨255, 255, 255⟩).get
        ⟨0, by decide⟩ = List.replicate 1 ⟨0, 0, 0⟩ ∧
    (create_gradient_background 1 4 ⟨0, 0, 0⟩ ⟨255, 255, 255⟩).get
        ⟨3, by decide⟩ =
      List.replicate 1
        ⟨interpChannel 0 255 3 4, interpChannel 0 255 3 4,
         interpChannel 0 255 3 4⟩ :=
  gradient_endpoint_rows 1 4 ⟨0, 0, 0⟩ ⟨255, 255, 255⟩ (by decide) (by decide)
    (by decide) (by decide) (by decide) (by decide)

/-- C6: for valid colors, each channel of the gradient row colors is
monotone in the row index whenever the top and bottom values of that
channel differ: non-decreasing when the bottom channel exceeds the top
channel, non-increasing when it is smaller. -/
theorem gradient_channelwise_monotone (top bottom : RGB) (h y y2 : ℕ)
    (htop : validColor top) (hbot : validColor bottom)
    (hh : 0 < h) (hy : y ≤ y2) (hy2 : y2 < h) :
    ((top.r < bottom.r →
        (gradientRow top bottom y h).r ≤ (gradientRow top bottom y2 h).r) ∧
     (bottom.r < top.r →
        (gradientRow top bottom y2 h).r ≤ (gradientRow top bottom y h).r)) ∧
    ((top.g < bottom.g →
        (gradientRow top bottom y h).g ≤ (gradientRow top bottom y2 h).g) ∧
     (bottom.g < top.g →
        (gradientRow top bottom y2 h).g ≤ (gradientRow top bottom y h).g)) ∧
    ((top.b < bottom.b →
        (gradientRow top bottom y h).b ≤ (gradientRow top bottom y2 h).b) ∧
     (bottom.b < top.b →
        (gradientRow top bottom y2 h).b ≤ (gradientRow top bottom y h).b)) := by
  obtain ⟨hr0, hr1, hg0, hg1, hb0, hb1⟩ := htop
  obtain ⟨hr0b, hr1b, hg0b, hg1b, hb0b, hb1b⟩ := hbot
  have hle : y2 ≤ h := le_of_lt hy2
  refine ⟨⟨fun hc => ?_, fun hc => ?_⟩, ⟨fun hc => ?_, fun hc => ?_⟩,
    ⟨fun hc => ?_, fun hc => ?_⟩⟩
  · exact interp_mono top.r bottom.r h y y2 hr0 hr0b hh hy hle (le_of_lt hc)
  · exact interp_anti top.r bottom.r h y y2 hr0 hr0b hh hy hle (le_of_lt hc)
  · exact interp_mono top.g bottom.g h y y2 hg0 hg0b hh hy hle (le_of_lt hc)
  · exact interp_anti top.g bottom.g h y y2 hg0 hg0b hh hy hle (le_of_lt hc)
  · exact interp_mono top.b bottom.b h y y2 hb0 hb0b hh hy hle (le_of_lt hc)
  · exact interp_anti top.b bottom.b h y y2 hb0 hb0b hh hy hle (le_of_lt hc)

/-- C6 witness: concrete instance comparing rows 1 and 2 of a
black-to-white gradient of height 3. -/
theorem gradient_channelwise_monotone_witness :
    (gradientRow ⟨0, 0, 0⟩ ⟨255, 255, 255⟩ 1 3).r ≤
      (gradientRow ⟨0, 0, 0⟩ ⟨255, 255, 255⟩ 2 3).r :=
  (gradient_channelwise_monotone ⟨0, 0, 0⟩ ⟨255, 255, 255⟩ 3 1 2 (by decide)
    (by decide) (by decide) (by decide) (by decide)).1.1 (by decide)

/-- C8: `create_gradient_background` is deterministic — two runs with
identical width, height and colors produce pixel-identical canvases; the
source consults no state beyond its arguments. -/
theorem gradient_deterministic (w1 h1 : ℤ) (t1 b1 : RGB) (w2 h2 : ℤ)
    (t2 b2 : RGB) (hw : w1 = w2) (hh : h1 = h2) (ht : t1 = t2)
    (hb : b1 = b2) :
    create_gradient_background w1 h1 t1 b1 =
      create_gradient_background w2 h2 t2 b2 := by
  subst hw
  subst hh
  subst ht
  subst hb
  rfl

/-- C8 witness: concrete instance of determinism. -/
theorem gradient_deterministic_witness :
    create_gradient_background 2 3 ⟨91, 163, 255⟩ ⟨30, 91, 184⟩ =
      create_gradient_background 2 3 ⟨91, 163, 255⟩ ⟨30, 91, 184⟩ :=
  gradient_deterministic 2 3 ⟨91, 163, 255⟩ ⟨30, 91, 184⟩ 2 3
    ⟨91, 163, 255⟩ ⟨30, 91, 184⟩ rfl rfl rfl rfl

/-- A parsed hex digit is worth at most `15`. -/
lemma hexDigitVal_le {c : Char} {v : ℕ} (h : hexDigitVal c = some v) :
    v ≤ 15 := by
  unfold hexDigitVal at h
  split at h
  · injection h with hv
    omega
  · split at h
    · injection h with hv
      omega
    · split at h
      · injection h with hv
        omega
      · exact Option.noConfusion h

/-- A hex digit is never the `'#'` character. -/
lemma hexDigitVal_ne_hash {c : Char} {v : ℕ} (h : hexDigitVal c = some v) :
    c ≠ '#' := by
  rintro rfl
  have hn : hexDigitVal '#' = none := rfl
  rw [hn] at h
  exact Option.noConfusion h

/-- Unfolding equation for `lstripHash` on a nonempty list. -/
lemma lstripHash_cons (c : Char) (cs : List Char) :
    lstripHash (c :: cs) = if c = '#' then lstripHash cs else c :: cs := rfl

/-- `int(_, 16)` on a two-digit slice. -/
lemma pyIntBase16_pair (a b : Char) (va vb : ℕ)
    (ha : hexDigitVal a = some va) (hb : hexDigitVal b = some vb) :
    pyIntBase16 [a, b] = some (16 * va + vb) := by
  simp [pyIntBase16, parseHexDigits, ha, hb]

/-- C9: on a string of exactly six hex digits, optionally preceded by a
`'#'`, `hex_to_rgb` returns the triple of byte values parsed from the
consecutive digit pairs in order (red, green, blue), and every returned
channel lies in `[0, 255]`. -/
theorem hex_to_rgb_six_digits (c1 c2 c3 c4 c5 c6 : Char)
    (v1 v2 v3 v4 v5 v6 : ℕ)
    (h1 : hexDigitVal c1 = some v1) (h2 : hexDigitVal c2 = some v2)
    (h3 : hexDigitVal c3 = some v3) (h4 : hexDigitVal c4 = some v4)
    (h5 : hexDigitVal c5 = some v5) (h6 : hexDigitVal c6 = some v6) :
    (hex_to_rgb (String.mk [c1, c2, c3, c4, c5, c6]) =
        some (16 * v1 + v2, 16 * v3 + v4, 16 * v5 + v6) ∧
      hex_to_rgb (String.mk ['#', c1, c2, c3, c4, c5, c6]) =
        some (16 * v1 + v2, 16 * v3 + v4, 16 * v5 + v6)) ∧
    16 * v1 + v2 ≤ 255 ∧ 16 * v3 + v4 ≤ 255 ∧ 16 * v5 + v6 ≤ 255 := by
  have hstrip : lstripHash [c1, c2, c3, c4, c5, c6] =
      [c1, c2, c3, c4, c5, c6] := by
    rw [lstripHash_cons, if_neg (hexDigitVal_ne_hash h1)]
  have hparse : hex_to_rgb (String.mk [c1, c2, c3, c4, c5, c6]) =
      some (16 * v1 + v2, 16 * v3 + v4, 16 * v5 + v6) := by
    unfold hex_to_rgb
    show (match pyIntBase16 ((lstripHash [c1, c2, c3, c4, c5, c6]).take 2),
        pyIntBase16 (((lstripHash [c1, c2, c3, c4, c5, c6]).drop 2).take 2),
        pyIntBase16 (((lstripHash [c1, c2, c3, c4, c5, c6]).drop 4).take 2) with
      | some rv, some gv, some bv => some (rv, gv, bv)
      | _, _, _ => none) = _
    rw [hstrip]
    simp only [List.take, List.drop]
    rw [pyIntBase16_pair c1 c2 v1 v2 h1 h2, pyIntBase16_pair c3 c4 v3 v4 h3 h4,
      pyIntBase16_pair c5 c6 v5 v6 h5 h6]
  refine ⟨⟨hparse, ?_⟩, ?_, ?_, ?_⟩
  · rw [← hparse]
    unfold hex_to_rgb
    have heq : lstripHash ['#', c1, c2, c3, c4, c5, c6] =
        lstripHash [c1, c2, c3, c4, c5, c6] := by
      rw [lstripHash_cons, if_pos rfl]
    rw [heq]
  · have := hexDigitVal_le h1
    have := hexDigitVal_le h2
    omega
  · have := hexDigitVal_le h3
    have := hexDigitVal_le h4
    omega
  · have := hexDigitVal_le h5
    have := hexDigitVal_le h6
    omega

/-- C9 witness: the module's `PRIMARY_BLUE` constant `"2E7CEE"` parses to
`(46, 124, 238)`. -/
theorem hex_to_rgb_six_digits_witness :
    (hex_to_rgb (String.mk ['2', 'E', '7', 'C', 'E', 'E']) =
        some (16 * 2 + 14, 16 * 7 + 12, 16 * 14 + 14) ∧
      hex_to_rgb (String.mk ['#', '2', 'E', '7', 'C', 'E', 'E']) =
        some (16 * 2 + 14, 16 * 7 + 12, 16 * 14 + 14)) ∧
    16 * 2 + 14 ≤ 255 ∧ 16 * 7 + 12 ≤ 255 ∧ 16 * 14 + 14 ≤ 255 :=
  hex_to_rgb_six_digits '2' 'E' '7' 'C' 'E' 'E' 2 14 7 12 14 14
    (by decide) (by decide) (by decide) (by decide) (by decide) (by decide)

/-- Membership in a Python range. -/
lemma mem_pyRange {a b x : ℤ} : x ∈ pyRange a b ↔ a ≤ x ∧ x < b := by
  simp only [pyRange, List.mem_map, List.mem_range]
  constructor
  · rintro ⟨i, hi, rfl⟩
    omega
  · intro hx
    exact ⟨(x - a).toNat, by omega, by omega⟩

/-- Length of a flat map as a sum of inner lengths. -/
lemma length_flatMap_sum {α β : Type} (l : List α) (f : α → List β) :
    (l.flatMap f).length = (l.map fun a => (f a).length).sum := by
  induction l with
  | nil => rfl
  | cons a l ih => simp [ih]

/-- Inner loop of the outline pass at a nonzero horizontal offset: every
vertical offset produces a draw. -/
lemma length_inner_ne (ax : ℤ) (cl : RGB) (l : List ℤ) (hax : ax ≠ 0) :
    (l.flatMap fun ay =>
      if ax ≠ 0 ∨ ay ≠ 0 then [(⟨ax, ay, cl⟩ : DrawOp)] else []).length =
      l.length := by
  induction l with
  | nil => rfl
  | cons a l ih =>
    simp only [List.flatMap_cons, List.length_append, ih]
    rw [if_pos (Or.inl hax)]
    simp only [List.length_cons, List.length_nil]
    omega

/-- Inner loop of the outline pass at horizontal offset zero: exactly the
nonzero vertical offsets produce draws. -/
lemma length_inner_zero (cl : RGB) (l : List ℤ) :
    (l.flatMap fun ay =>
      if (0 : ℤ) ≠ 0 ∨ ay ≠ 0 then [(⟨0, ay, cl⟩ : DrawOp)] else []).length =
      l.countP fun ay => decide (ay ≠ 0) := by
  induction l with
  | nil => rfl
  | cons a l ih =>
    simp only [List.flatMap_cons, List.length_append, ih, List.countP_cons]
    by_cases ha : a = 0
    · subst ha
      rw [if_neg (by simp)]
      simp
    · rw [if_pos (Or.inr ha)]
      simp only [List.length_cons, List.length_nil, ha, decide_not]
      simp [ha]
      omega

/-- Python ranges contain no duplicates. -/
lemma pyRange_nodup (a b : ℤ) : (pyRange a b).Nodup := by
  unfold pyRange
  exact List.Nodup.map (fun i j hij => by omega) (List.nodup_range _)

/-- Length of a Python range. -/
lemma pyRange_length (a b : ℤ) : (pyRange a b).length = (b - a).toNat := by
  unfold pyRange
  simp

/-- Zero occurs exactly once in `range(-w, w+1)` for nonnegative `w`. -/
lemma countP_pyRange_zero (w : ℤ) (hw : 0 ≤ w) :
    (pyRange (-w) (w + 1)).countP (fun a => decide (a = 0)) = 1 := by
  have h0 : (0 : ℤ) ∈ pyRange (-w) (w + 1) :=
    mem_pyRange.mpr ⟨by omega, by omega⟩
  have h1 : (pyRange (-w) (w + 1)).count 0 = 1 :=
    List.count_eq_one_of_mem (pyRange_nodup _ _) h0
  rw [← h1, List.count_eq_countP]
  apply List.countP_congr
  intro x hx
  simp

/-- The zero and nonzero entries of a list of integers partition it. -/
lemma countP_ne_add (l : List ℤ) :
    l.countP (fun a => decide (a ≠ 0)) + l.countP (fun a => decide (a = 0)) =
      l.length := by
  induction l with
  | nil => rfl
  | cons a l ih =>
    simp only [List.countP_cons, List.length_cons]
    by_cases ha : a = 0
    · rw [if_neg (by simp [ha]), if_pos (by simp [ha])]
      omega
    · rw [if_pos (by simp [ha]), if_neg (by simp [ha])]
      omega

/-- The nonzero entries of `range(-w, w+1)` number `2w` for nonnegative
`w`. -/
lemma countP_pyRange_nonzero (w : ℤ) (hw : 0 ≤ w) :
    (pyRange (-w) (w + 1)).countP (fun a => decide (a ≠ 0)) = 2 * w.toNat := by
  have hadd := countP_ne_add (pyRange (-w) (w + 1))
  rw [countP_pyRange_zero w hw, pyRange_length] at hadd
  omega

/-- Sum of a two-valued map, split by which entries vanish. -/
lemma sum_map_ite_zero (l : List ℤ) (A B : ℕ) :
    (l.map fun a => if a = 0 then A else B).sum =
      A * l.countP (fun a => decide (a = 0)) +
        B * l.countP (fun a => decide (a ≠ 0)) := by
  induction l with
  | nil => simp
  | cons a l ih =>
    simp only [List.map_cons, List.sum_cons, ih, List.countP_cons]
    by_cases ha : a = 0
    · subst ha
      simp
      ring
    · simp [ha]
      ring

/-- Number of outline draws: the full `(2w+1) × (2w+1)` square minus the
skipped center. -/
lemma haloOps_length_succ (w : ℤ) (hw : 0 ≤ w) (cl : RGB) :
    (haloOps w cl).length + 1 = (2 * w.toNat + 1) * (2 * w.toNat + 1) := by
  unfold haloOps
  rw [length_flatMap_sum]
  have hlen : (pyRange (-w) (w + 1)).length = 2 * w.toNat + 1 := by
    rw [pyRange_length]
    omega
  have hmap : (pyRange (-w) (w + 1)).map
        (fun ax => ((pyRange (-w) (w + 1)).flatMap fun ay =>
          if ax ≠ 0 ∨ ay ≠ 0 then [(⟨ax, ay, cl⟩ : DrawOp)] else []).length) =
      (pyRange (-w) (w + 1)).map
        (fun ax => if ax = 0 then 2 * w.toNat else 2 * w.toNat + 1) := by
    apply List.map_congr_left
    intro ax hax
    by_cases h0 : ax = 0
    · subst h0
      rw [length_inner_zero cl (pyRange (-w) (w + 1)),
        countP_pyRange_nonzero w hw]
      simp
    · rw [length_inner_ne ax cl (pyRange (-w) (w + 1)) h0, hlen]
      simp [h0]
  rw [hmap, sum_map_ite_zero, countP_pyRange_zero w hw,
    countP_pyRange_nonzero w hw]
  ring

/-- Exact characterization of the outline draw operations. -/
lemma mem_haloOps {w dx dy : ℤ} {cl outline : RGB} :
    (⟨dx, dy, cl⟩ : DrawOp) ∈ haloOps w outline ↔
      cl = outline ∧ -w ≤ dx ∧ dx ≤ w ∧ -w ≤ dy ∧ dy ≤ w ∧
        (dx ≠ 0 ∨ dy ≠ 0) := by
  unfold haloOps
  simp only [List.mem_flatMap]
  constructor
  · rintro ⟨ax, hax, ay, hay, hmem⟩
    rw [mem_pyRange] at hax hay
    split at hmem
    · simp only [List.mem_singleton] at hmem
      injection hmem with e1 e2 e3
      subst e1
      subst e2
      subst e3
      refine ⟨rfl, by omega, by omega, by omega, by omega, by assumption⟩
    · exact absurd hmem (List.not_mem_nil _)
  · rintro ⟨rfl, h1, h2, h3, h4, h5⟩
    refine ⟨dx, mem_pyRange.mpr ⟨h1, by omega⟩, dy,
      mem_pyRange.mpr ⟨h3, by omega⟩, ?_⟩
    rw [if_pos h5]
    simp

/-- The final fill-color draw lands on top of every earlier draw at any
pixel the anchored text mask covers. -/
lemma draw_text_with_outline_topmost (f : Font) (pos : ℤ × ℤ) (t : String)
    (fill outline : RGB) (w : ℤ) (c : Canvas2) (u v : ℤ)
    (hm : f.mask t u v = true) :
    draw_text_with_outline f pos t fill outline w c (pos.1 + u) (pos.2 + v) =
      fill := by
  unfold draw_text_with_outline stampOps
  rw [List.foldl_append]
  simp only [List.foldl_cons, List.foldl_nil]
  unfold drawText
  have h1 : pos.1 + u - (pos.1 + (0 : ℤ)) = u := by ring
  have h2 : pos.2 + v - (pos.2 + (0 : ℤ)) = v := by ring
  simp only [h1, h2, hm]
  rfl

/-- With a negative width both offset ranges are empty. -/
lemma haloOps_neg (w : ℤ) (hw : w < 0) (cl : RGB) : haloOps w cl = [] := by
  unfold haloOps
  have hr : pyRange (-w) (w + 1) = [] := by
    unfold pyRange
    have h0 : (w + 1 - -w).toNat = 0 := by omega
    rw [h0]
    rfl
  rw [hr]
  rfl

/-- With width zero the only offset pair is the excluded center. -/
lemma haloOps_zero (cl : RGB) : haloOps 0 cl = [] := rfl

/-- The source's candidate walk computes the spec's first-success fallback
chain. -/
lemma resolveFont_spec (pe lo : String → Bool) (size : ℤ)
    (opts : List (Option String)) :
    resolveFont pe lo size opts =
      (match specFirstUsable pe lo opts with
       | some p => FontHandle.truetype p size
       | none => FontHandle.builtin) := by
  induction opts with
  | nil => rfl
  | cons o rest ih =>
    cases o with
    | none => exact ih
    | some p =>
      unfold resolveFont specFirstUsable
      by_cases hpe : pe p = true
      · by_cases hlo : lo p = true
        · rw [hpe, hlo]
          simp
        · simp only [Bool.not_eq_true] at hlo
          rw [hpe, hlo]
          simpa using ih
      · simp only [Bool.not_eq_true] at hpe
        rw [hpe]
        simpa using ih

/-- C2: for every nonnegative outline width `w`, `draw_text_with_outline`
performs its outline draws at exactly the `(2w+1)^2 - 1` offsets of the
filled square `[-w, w] × [-w, w]` minus the center, all in the outline
color, before the single fill-color draw at the anchor; the fill draw is
therefore topmost at every pixel of the anchored text; with `w = 0` only
the fill draw occurs. -/
theorem stamp_halo_square_then_fill (w : ℤ) (fill outline : RGB)
    (hw : 0 ≤ w) :
    stampOps w fill outline = haloOps w outline ++ [⟨0, 0, fill⟩] ∧
    (haloOps w outline).length = (2 * w.toNat + 1) ^ 2 - 1 ∧
    (∀ dx dy : ℤ, ∀ cl : RGB,
      (⟨dx, dy, cl⟩ : DrawOp) ∈ haloOps w outline ↔
        cl = outline ∧ -w ≤ dx ∧ dx ≤ w ∧ -w ≤ dy ∧ dy ≤ w ∧
          (dx ≠ 0 ∨ dy ≠ 0)) ∧
    (∀ (f : Font) (pos : ℤ × ℤ) (t : String) (c : Canvas2) (u v : ℤ),
      f.mask t u v = true →
      draw_text_with_outline f pos t fill outline w c (pos.1 + u)
        (pos.2 + v) = fill) ∧
    (w = 0 → stampOps w fill outline = [⟨0, 0, fill⟩]) := by
  refine ⟨rfl, ?_, ?_, ?_, ?_⟩
  · have h := haloOps_length_succ w hw outline
    have hp : (2 * w.toNat + 1) ^ 2 = (2 * w.toNat + 1) * (2 * w.toNat + 1) :=
      pow_two _
    omega
  · intro dx dy cl
    exact mem_haloOps
  · intro f pos t c u v hm
    exact draw_text_with_outline_topmost f pos t fill outline w c u v hm
  · intro h0
    subst h0
    unfold stampOps
    rw [haloOps_zero]
    rfl

/-- C2 witness: outline width `1` gives eight outline draws, contains the
diagonal offset `(1, 1)`, and the fill draw wins at the anchor. -/
theorem stamp_halo_square_then_fill_witness :
    (haloOps 1 ⟨0, 0, 0⟩).length = (2 * (1 : ℤ).toNat + 1) ^ 2 - 1 ∧
    ((⟨1, 1, ⟨0, 0, 0⟩⟩ : DrawOp) ∈ haloOps 1 ⟨0, 0, 0⟩ ↔
      (⟨0, 0, 0⟩ : RGB) = ⟨0, 0, 0⟩ ∧ -1 ≤ (1 : ℤ) ∧ (1 : ℤ) ≤ 1 ∧
        -1 ≤ (1 : ℤ) ∧ (1 : ℤ) ≤ 1 ∧ ((1 : ℤ) ≠ 0 ∨ (1 : ℤ) ≠ 0)) ∧
    draw_text_with_outline dotFont (5, 7) "Rx" ⟨255, 255, 255⟩ ⟨0, 0, 0⟩ 1
      blankCanvas (5 + 0) (7 + 0) = ⟨255, 255, 255⟩ :=
  ⟨(stamp_halo_square_then_fill 1 ⟨255, 255, 255⟩ ⟨0, 0, 0⟩ (by decide)).2.1,
   (stamp_halo_square_then_fill 1 ⟨255, 255, 255⟩ ⟨0, 0, 0⟩
     (by decide)).2.2.1 1 1 ⟨0, 0, 0⟩,
   (stamp_halo_square_then_fill 1 ⟨255, 255, 255⟩ ⟨0, 0, 0⟩
     (by decide)).2.2.2.1 dotFont (5, 7) "Rx" blankCanvas 0 0 (by decide)⟩

/-- C10: with a negative outline width both Python ranges are empty, so no
outline draw happens and the single fill-color draw at the anchor remains
— identical behavior to outline width `0`, with no failure. -/
theorem negative_outline_width_fill_only (w : ℤ) (hw : w < 0)
    (fill outline : RGB) :
    haloOps w outline = [] ∧
    stampOps w fill outline = [⟨0, 0, fill⟩] ∧
    stampOps w fill outline = stampOps 0 fill outline ∧
    ∀ (f : Font) (pos : ℤ × ℤ) (t : String) (c : Canvas2),
      draw_text_with_outline f pos t fill outline w c =
        draw_text_with_outline f pos t fill outline 0 c := by
  have h1 : stampOps w fill outline = [⟨0, 0, fill⟩] := by
    unfold stampOps
    rw [haloOps_neg w hw]
    rfl
  have h0 : stampOps 0 fill outline = [⟨0, 0, fill⟩] := by
    unfold stampOps
    rw [haloOps_zero]
    rfl
  refine ⟨haloOps_neg w hw outline, h1, h1.trans h0.symm, ?_⟩
  intro f pos t c
  unfold draw_text_with_outline
  rw [h1, h0]

/-- C10 witness: outline width `-1` behaves exactly like width `0`. -/
theorem negative_outline_width_fill_only_witness :
    haloOps (-1) ⟨0, 0, 0⟩ = [] ∧
    stampOps (-1) ⟨255, 255, 255⟩ ⟨0, 0, 0⟩ =
      [⟨0, 0, ⟨255, 255, 255⟩⟩] ∧
    stampOps (-1) ⟨255, 255, 255⟩ ⟨0, 0, 0⟩ =
      stampOps 0 ⟨255, 255, 255⟩ ⟨0, 0, 0⟩ ∧
    draw_text_with_outline dotFont (0, 0) "Rx" ⟨255, 255, 255⟩ ⟨0, 0, 0⟩
        (-1) blankCanvas =
      draw_text_with_outline dotFont (0, 0) "Rx" ⟨255, 255, 255⟩ ⟨0, 0, 0⟩ 0
        blankCanvas :=
  ⟨(negative_outline_width_fill_only (-1) (by decide) ⟨255, 255, 255⟩
      ⟨0, 0, 0⟩).1,
   (negative_outline_width_fill_only (-1) (by decide) ⟨255, 255, 255⟩
      ⟨0, 0, 0⟩).2.1,
   (negative_outline_width_fill_only (-1) (by decide) ⟨255, 255, 255⟩
      ⟨0, 0, 0⟩).2.2.1,
   (negative_outline_width_fill_only (-1) (by decide) ⟨255, 255, 255⟩
      ⟨0, 0, 0⟩).2.2.2 dotFont (0, 0) "Rx" blankCanvas⟩

/-- C5: when a label's font cannot render its text, the measurement in the
guarded block raises before any draw, the bare `except` swallows it, the
canvas is left completely unchanged by that label, and the remaining
labels are still applied. -/
theorem stamp_failure_skipped (pre post : List LabelSpec) (bad : LabelSpec)
    (c : Canvas2) (hfail : bad.font.canRender bad.text = false) :
    tryStamp c bad = c ∧
    create_app_icon_stamps c (pre ++ bad :: post) =
      create_app_icon_stamps c (pre ++ post) := by
  have hskip : ∀ c2 : Canvas2, tryStamp c2 bad = c2 := by
    intro c2
    unfold tryStamp pyTextbbox
    rw [hfail]
    rfl
  refine ⟨hskip c, ?_⟩
  unfold create_app_icon_stamps
  rw [List.foldl_append, List.foldl_append, List.foldl_cons, hskip]

/-- C5 witness: a label whose font renders nothing leaves a concrete canvas
untouched and drops out of the pipeline. -/
theorem stamp_failure_skipped_witness :
    tryStamp blankCanvas unrenderableLabel = blankCanvas ∧
    create_app_icon_stamps blankCanvas ([] ++ unrenderableLabel :: []) =
      create_app_icon_stamps blankCanvas ([] ++ []) :=
  stamp_failure_skipped [] [] unrenderableLabel blankCanvas rfl

/-- C7: `get_font` never raises — every candidate that is `None`, does not
exist, or fails to load is skipped in order, and the function returns the
TrueType handle of the first usable candidate or, when all are exhausted,
the built-in default font. -/
theorem get_font_first_usable_or_builtin (pe lo : String → Bool) (size : ℤ)
    (bold : Bool) :
    get_font pe lo size bold =
      (match specFirstUsable pe lo (font_options bold) with
       | some p => FontHandle.truetype p size
       | none => FontHandle.builtin) :=
  resolveFont_spec pe lo size (font_options bold)

end GenerateAssets
